import Mathlib

/-!
Verification of the data-plane ingest window (`core/src/window_service.rs`):
the admission filter `should_retransmit_and_persist`, the per-iteration ingest
stage `recv_window`, the worker loop of `WindowService::new`, and the
`Finalizer` teardown guard.

The embedding is shallow: external collaborators that live outside the
verified file (the bincode deserializer, the shred signature check, the
leader-schedule cache, the block store insert, the channels) are parameters,
and the control flow of the window-service source is translated function by
function.  The rayon pipeline
`par_iter_mut().enumerate().filter_map(..).unzip()` is an indexed parallel
iterator, which preserves the input order of the batch; it is therefore
rendered as a structural recursion over the packet list carrying the running
index (`decodeStage`).
-/

namespace SolanaWindow

/-- Modelled from the spec: a node identity is a public key (opaque; only
equality is used by the window). -/
structure Pubkey where
  key : Nat
deriving DecidableEq, Repr

/-- Modelled from the spec: a bank is a state snapshot used only as context
for leader-schedule queries; its content is opaque to the window. -/
structure Bank where
  bslot : Nat
deriving DecidableEq, Repr

/-- Modelled from the spec: the decoded form of a shred, carrying the slot,
the index within the slot, and the retransmit seed.  The signature itself is
abstracted into the `fastVerify` parameter below. -/
structure Shred where
  slot : Nat
  index : Nat
  seed : Nat
deriving DecidableEq, Repr

/-- The metrics counters the admission filter can emit
(`streamer-recv_window-unknown_leader`, `streamer-recv_window-circular_transmission`,
`streamer-recv_window-invalid_signature`). -/
inductive Counter
  | unknownLeader
  | circularTransmission
  | invalidSignature
deriving DecidableEq, Repr

/-- `should_retransmit_and_persist` from `window_service.rs`.  The leader
schedule cache is the parameter `slotLeaderAt` (`slot_leader_at(slot, bank)`)
and the shred signature check is the parameter `fastVerify`
(`shred.fast_verify(shred_buf, leader_id)`).  The returned list records the
counters emitted by the call, in order. -/
def should_retransmit_and_persist
    (fastVerify : Shred → List Nat → Pubkey → Bool)
    (slotLeaderAt : Nat → Option Bank → Option Pubkey)
    (shred : Shred) (shred_buf : List Nat)
    (bank : Option Bank) (my_pubkey : Pubkey) : Bool × List Counter :=
  let slot_leader_pubkey :=
    match bank with
    | none => slotLeaderAt shred.slot none
    | some bank => slotLeaderAt shred.slot (some bank)
  match slot_leader_pubkey with
  | some leader_id =>
      if leader_id = my_pubkey then
        (false, [Counter.circularTransmission])
      else if !(fastVerify shred shred_buf leader_id) then
        (false, [Counter.invalidSignature])
      else
        (true, [])
  | none => (false, [Counter.unknownLeader])

/-- C1: `should_retransmit_and_persist` applies its checks in order: with no
known leader for `shred.slot` it returns `false` emitting only the
`unknown_leader` counter; with the leader equal to the node's own identity it
returns `false` emitting only the `circular_transmission` counter, and the
result does not depend on the signature check (`fast_verify` is not
consulted); with a distinct leader and a failing `fast_verify` it returns
`false` emitting only the `invalid_signature` counter; otherwise it returns
`true` and emits nothing. -/
theorem C1_admission_checks_in_order
    (fastVerify : Shred → List Nat → Pubkey → Bool)
    (slotLeaderAt : Nat → Option Bank → Option Pubkey)
    (shred : Shred) (shred_buf : List Nat)
    (bank : Option Bank) (my_pubkey : Pubkey) :
    (slotLeaderAt shred.slot bank = none →
      should_retransmit_and_persist fastVerify slotLeaderAt shred shred_buf bank my_pubkey
        = (false, [Counter.unknownLeader]))
    ∧ (∀ L, slotLeaderAt shred.slot bank = some L → L = my_pubkey →
        ∀ otherVerify : Shred → List Nat → Pubkey → Bool,
          should_retransmit_and_persist otherVerify slotLeaderAt shred shred_buf bank my_pubkey
            = (false, [Counter.circularTransmission]))
    ∧ (∀ L, slotLeaderAt shred.slot bank = some L → L ≠ my_pubkey →
        fastVerify shred shred_buf L = false →
        should_retransmit_and_persist fastVerify slotLeaderAt shred shred_buf bank my_pubkey
          = (false, [Counter.invalidSignature]))
    ∧ (∀ L, slotLeaderAt shred.slot bank = some L → L ≠ my_pubkey →
        fastVerify shred shred_buf L = true →
        should_retransmit_and_persist fastVerify slotLeaderAt shred shred_buf bank my_pubkey
          = (true, [])) := by
  refine ⟨?_, ?_, ?_, ?_⟩
  · intro hnone
    cases bank <;> simp [should_retransmit_and_persist, hnone]
  · intro L hsome hL otherVerify
    cases bank <;>
      simp only [should_retransmit_and_persist] at hsome ⊢ <;>
      rw [hsome] <;> simp [hL]
  · intro L hsome hL hverify
    cases bank <;>
      simp only [should_retransmit_and_persist] at hsome ⊢ <;>
      rw [hsome] <;> simp [hL, hverify]
  · intro L hsome hL hverify
    cases bank <;>
      simp only [should_retransmit_and_persist] at hsome ⊢ <;>
      rw [hsome] <;> simp [hL, hverify]

/-! ## Packets, channels and errors -/

/-- Modelled from the spec: the mutable side-band of a packet; the ingest
stage writes `slot` and `seed` into it from the decoded shred. -/
structure PacketMeta where
  slot : Nat
  seed : Nat
deriving DecidableEq, Repr

/-- Modelled from the spec: a raw packet, an MTU-sized byte buffer plus its
mutable meta. -/
structure Packet where
  data : List Nat
  meta : PacketMeta
deriving DecidableEq, Repr

/-- A packet batch (`Packets`): an ordered sequence of packets received
together. -/
structure Packets where
  packets : List Packet
deriving DecidableEq, Repr

/-- `std::sync::mpsc::RecvTimeoutError`. -/
inductive RecvTimeoutError
  | Timeout
  | Disconnected
deriving DecidableEq, Repr

/-- The error kinds of `crate::result::Error` that `recv_window` and the
worker loop distinguish: a channel receive error, or a block-store error
(all remaining kinds, carried abstractly as a code). -/
inductive WinError
  | RecvTimeout (e : RecvTimeoutError)
  | Blocktree (code : Nat)
deriving DecidableEq, Repr

/-- `Duration::from_millis(200)`: the bound on the blocking receive. -/
def RECV_TIMEOUT_MS : Nat := 200

/-- The inbound channel as `recv_window` observes it during one invocation:
what `recv_timeout(t)` returns for a wait bounded by `t` milliseconds, and
the batches `try_recv` then drains without blocking, in arrival order. -/
structure ChannelInput where
  recv_timeout : Nat → Except RecvTimeoutError Packets
  queued : List Packets

/-- The coalesced batch: the first received batch with every immediately
available queued batch appended, in order
(`packets.packets.append(&mut more_packets.packets)`). -/
def coalesced (firstBatch : Packets) (queued : List Packets) : List Packet :=
  firstBatch.packets ++ (queued.map Packets.packets).flatten

/-! ## Parallel decode + filter stage -/

/-- `packet.meta.slot = shred.slot(); packet.meta.seed = shred.seed();` -/
def setShredMeta (p : Packet) (s : Shred) : Packet :=
  { p with meta := { p.meta with slot := s.slot, seed := s.seed } }

/-- The parallel decode+filter stage of `recv_window`:
`packets.par_iter_mut().enumerate().filter_map(..).unzip()`.  A rayon indexed
parallel iterator preserves input order, so the stage is rendered as a
structural recursion carrying the running index `i`.  The first component is
the packet list after the in-place meta updates; the second is the aligned
survivor list of `(shred, original_index)` pairs (the code unzips it into
`(shreds, packets_ix)`).  The deserializer (`bincode::deserialize`) is the
parameter `deser`. -/
def decodeStage (deser : List Nat → Option Shred)
    (shred_filter : Shred → List Nat → Bool) :
    List Packet → Nat → List Packet × List (Shred × Nat)
  | [], _ => ([], [])
  | p :: ps, i =>
    let rest := decodeStage deser shred_filter ps (i + 1)
    match deser p.data with
    | some s =>
      if shred_filter s p.data then
        (setShredMeta p s :: rest.1, (s, i) :: rest.2)
      else
        (p :: rest.1, rest.2)
    | none => (p :: rest.1, rest.2)

/-- The admission decision on one packet's bytes: the shred it decodes to
when deserialization succeeds and the filter accepts, `none` otherwise. -/
def acceptShred (deser : List Nat → Option Shred)
    (shred_filter : Shred → List Nat → Bool) (d : List Nat) : Option Shred :=
  match deser d with
  | some s => if shred_filter s d then some s else none
  | none => none

/-! ## Order-preserving packet retention -/

/-- The retention rebuild of `recv_window`:
`packets.packets.retain(|_| { .. })` with the captured cursor `retain_ix` and
counter `i`.  `Vec::retain` visits elements in order, so it is a structural
recursion over the packet list.  The indexing `packets_ix[retain_ix]` is
rendered through `List.get?`; the `none` arm marks the out-of-bounds panic
the source would take, and the theorems prove it is never reached. -/
def retainLoop (packets_ix : List Nat) :
    List Packet → Nat → Nat → Option (List Packet)
  | [], _, _ => some []
  | p :: ps, retain_ix, i =>
    if packets_ix.isEmpty then
      retainLoop packets_ix ps retain_ix (i + 1)
    else
      match packets_ix.get? retain_ix with
      | none => none
      | some v =>
        if i = v then
          (retainLoop packets_ix ps
              (min (packets_ix.length - 1) (retain_ix + 1)) (i + 1)).map
            (fun rest => p :: rest)
        else
          retainLoop packets_ix ps retain_ix (i + 1)

/-! ## recv_window -/

/-- The surviving shreds of one ingest iteration over `batch` (the `shreds`
half of the unzip). -/
def stageShreds (deser : List Nat → Option Shred)
    (shred_filter : Shred → List Nat → Bool) (batch : List Packet) : List Shred :=
  ((decodeStage deser shred_filter batch 0).2).map Prod.fst

/-- The surviving original indices of one ingest iteration over `batch` (the
`packets_ix` half of the unzip). -/
def stageIx (deser : List Nat → Option Shred)
    (shred_filter : Shred → List Nat → Bool) (batch : List Packet) : List Nat :=
  ((decodeStage deser shred_filter batch 0).2).map Prod.snd

/-- The packet batch after the retention rebuild of one ingest iteration
over `batch`. -/
def stageRetained (deser : List Nat → Option Shred)
    (shred_filter : Shred → List Nat → Bool) (batch : List Packet) : List Packet :=
  (retainLoop (stageIx deser shred_filter batch)
      (decodeStage deser shred_filter batch 0).1 0 0).getD []

/-- The observable outcome of one `recv_window` invocation. -/
structure RecvTrace where
  /-- the rebuilt packet batch after retention -/
  retained : List Packet
  /-- whether a send to the retransmit sink was attempted -/
  sentToRetransmit : Bool
  /-- the outcome of the attempted send, `none` when no send happened
  (`recv_window` discards it: `let _ = retransmit.send(packets)`) -/
  sendOutcome : Option Bool
  /-- the shred sequence handed to `blocktree.insert_shreds`, `none` when the
  insert was never reached -/
  inserted : Option (List Shred)
  /-- the value `recv_window` returns -/
  result : Except WinError Unit
deriving Repr

/-- `recv_window` from `window_service.rs`.  `insert_shreds` is the block
store's response to the bulk insert (its error is carried as a code);
`sinkAlive` tells whether the retransmit sink still has a consumer, which
decides the outcome of an attempted send. -/
def recv_window (deser : List Nat → Option Shred)
    (shred_filter : Shred → List Nat → Bool)
    (insert_shreds : List Shred → Except Nat Unit)
    (sinkAlive : Bool) (ch : ChannelInput) : RecvTrace :=
  match ch.recv_timeout RECV_TIMEOUT_MS with
  | Except.error e =>
      { retained := [], sentToRetransmit := false, sendOutcome := none,
        inserted := none, result := Except.error (WinError.RecvTimeout e) }
  | Except.ok firstBatch =>
      let batch := coalesced firstBatch ch.queued
      let shreds := stageShreds deser shred_filter batch
      let retained := stageRetained deser shred_filter batch
      let sent := !retained.isEmpty
      let sendOutcome := if retained.isEmpty then none else some sinkAlive
      match insert_shreds shreds with
      | Except.error code =>
          { retained := retained, sentToRetransmit := sent,
            sendOutcome := sendOutcome, inserted := some shreds,
            result := Except.error (WinError.Blocktree code) }
      | Except.ok _ =>
          { retained := retained, sentToRetransmit := sent,
            sendOutcome := sendOutcome, inserted := some shreds,
            result := Except.ok () }

/-! ## Lemmas about the retention rebuild -/

/-- The order-preserving selection the retention rebuild is meant to
implement: keep the packet seen at counter value `i` exactly when `i` occurs
in the survivor-index list. -/
def keepByIx (ix : List Nat) : List Packet → Nat → List Packet
  | [], _ => []
  | p :: ps, i =>
    if i ∈ ix then p :: keepByIx ix ps (i + 1) else keepByIx ix ps (i + 1)

/-- The cursor invariant of the retention loop: the survivor-index list is
empty, or the cursor is in bounds and parked at the first index that is still
`≥ i`, or every index is behind `i` and the clamp has parked the cursor at
the last position. -/
def PtrInv (ix : List Nat) (r i : Nat) : Prop :=
  ix = [] ∨
    ∃ h : r < ix.length,
      (i ≤ ix.get ⟨r, h⟩ ∧ ∀ k (hk : k < ix.length), i ≤ ix.get ⟨k, hk⟩ → r ≤ k) ∨
      (ix.get ⟨r, h⟩ < i ∧ r = ix.length - 1)

lemma list_get_mk {α : Type} (l : List α) (k : Nat) (hk : k < l.length) :
    l.get ⟨k, hk⟩ = l[k] := rfl

lemma ptrInv_zero (ix : List Nat) : PtrInv ix 0 0 := by
  cases ix with
  | nil => exact Or.inl rfl
  | cons a l =>
      exact Or.inr ⟨Nat.succ_pos _,
        Or.inl ⟨Nat.zero_le _, fun k hk _ => Nat.zero_le _⟩⟩

lemma ptrInv_mem (ix : List Nat) (hs : ix.Pairwise (· < ·)) {r i : Nat}
    (hinv : PtrInv ix r i) (hmem : i ∈ ix) :
    ∃ h : r < ix.length, ix.get ⟨r, h⟩ = i := by
  rcases hinv with hnil | ⟨h, hcase⟩
  · subst hnil; simp at hmem
  · refine ⟨h, ?_⟩
    rcases List.mem_iff_getElem.mp hmem with ⟨k, hk, hget⟩
    have hpg := List.pairwise_iff_getElem.mp hs
    rw [list_get_mk]
    rcases hcase with ⟨hle, hmin⟩ | ⟨hlt, hlast⟩
    · have hrk : r ≤ k := by
        refine hmin k hk ?_
        rw [list_get_mk]; omega
      rcases Nat.lt_or_ge r k with hlt2 | hge
      · have := hpg r k h hk hlt2
        rw [list_get_mk] at hle
        omega
      · have : r = k := by omega
        subst this; exact hget
    · rw [list_get_mk] at hlt
      rcases Nat.lt_or_ge k r with hlt2 | hge
      · have := hpg k r hk h hlt2
        omega
      · have : r = k := by omega
        subst this; exact hget

lemma ptrInv_step_miss (ix : List Nat) {r i : Nat}
    (hinv : PtrInv ix r i) (hmiss : ∀ h : r < ix.length, ix.get ⟨r, h⟩ ≠ i) :
    PtrInv ix r (i + 1) := by
  rcases hinv with hnil | ⟨h, hcase⟩
  · exact Or.inl hnil
  · refine Or.inr ⟨h, ?_⟩
    rcases hcase with ⟨hle, hmin⟩ | ⟨hlt, hlast⟩
    · have hne := hmiss h
      refine Or.inl ⟨by omega, fun k hk hik => hmin k hk (by omega)⟩
    · exact Or.inr ⟨by omega, hlast⟩

lemma ptrInv_step_hit (ix : List Nat) (hs : ix.Pairwise (· < ·)) {r i : Nat}
    (h : r < ix.length) (hhit : ix.get ⟨r, h⟩ = i) :
    PtrInv ix (min (ix.length - 1) (r + 1)) (i + 1) := by
  have hpg := List.pairwise_iff_getElem.mp hs
  rcases Nat.lt_or_ge (r + 1) ix.length with hlt | hge
  · have hmin : min (ix.length - 1) (r + 1) = r + 1 := by omega
    rw [hmin]
    refine Or.inr ⟨hlt, Or.inl ⟨?_, ?_⟩⟩
    · have := hpg r (r + 1) h hlt (by omega)
      rw [list_get_mk] at hhit ⊢
      omega
    · intro k hk hik
      rw [list_get_mk] at hik
      rw [list_get_mk] at hhit
      by_contra hcon
      have hkr : k ≤ r := by omega
      rcases Nat.lt_or_ge k r with hlt2 | hge2
      · have := hpg k r hk h hlt2
        omega
      · have : k = r := by omega
        subst this; omega
  · have hmin : min (ix.length - 1) (r + 1) = ix.length - 1 := by omega
    have hreq : r = ix.length - 1 := by omega
    rw [hmin, ← hreq]
    refine Or.inr ⟨h, Or.inr ⟨by rw [list_get_mk] at hhit ⊢; omega, hreq⟩⟩

lemma retainLoop_eq_keep (ix : List Nat) (hs : ix.Pairwise (· < ·)) :
    ∀ (ps : List Packet) (r i : Nat), PtrInv ix r i →
      retainLoop ix ps r i = some (keepByIx ix ps i) := by
  intro ps
  induction ps with
  | nil => intro r i _; rfl
  | cons p ps ih =>
      intro r i hinv
      by_cases hnil : ix = []
      · subst hnil
        simp only [retainLoop, keepByIx, List.isEmpty_nil, if_true,
          List.not_mem_nil, if_false]
        exact ih r (i + 1) (Or.inl rfl)
      · have hne : ix.isEmpty = false := by
          cases ix with
          | nil => exact absurd rfl hnil
          | cons a l => rfl
        have hr : r < ix.length := by
          rcases hinv with h | ⟨h, _⟩
          · exact absurd h hnil
          · exact h
        simp only [retainLoop, hne, Bool.false_eq_true, if_false,
          List.get?_eq_get hr]
        by_cases hhit : i = ix.get ⟨r, hr⟩
        · have hmem : i ∈ ix := by
            rw [hhit]; exact List.get_mem _ _ _
          simp only [if_pos hhit, keepByIx, if_pos hmem]
          rw [ih _ (i + 1) (ptrInv_step_hit ix hs hr hhit.symm)]
          rfl
        · have hnmem : i ∉ ix := by
            intro hmem
            rcases ptrInv_mem ix hs hinv hmem with ⟨h, hget⟩
            exact hhit hget.symm
          simp only [if_neg hhit, keepByIx, if_neg hnmem]
          exact ih r (i + 1) (ptrInv_step_miss ix hinv
            (fun h hget => hhit hget.symm))

lemma retainLoop_nil (ps : List Packet) :
    ∀ r i, retainLoop [] ps r i = some [] := by
  induction ps with
  | nil => intro r i; rfl
  | cons p ps ih =>
      intro r i
      simp only [retainLoop, List.isEmpty_nil, if_true]
      exact ih r (i + 1)

lemma retainLoop_isSome (ix : List Nat) :
    ∀ (ps : List Packet) (r i : Nat), r < ix.length ∨ ix = [] →
      (retainLoop ix ps r i).isSome = true := by
  intro ps
  induction ps with
  | nil => intro r i _; rfl
  | cons p ps ih =>
      intro r i hr
      rcases hr with hr | hnil
      · have hne : ix.isEmpty = false := by
          cases ix with
          | nil => simp at hr
          | cons a l => rfl
        simp only [retainLoop, hne, Bool.false_eq_true, if_false,
          List.get?_eq_get hr]
        by_cases hhit : i = ix.get ⟨r, hr⟩
        · simp only [if_pos hhit]
          have := ih (min (ix.length - 1) (r + 1)) (i + 1)
            (Or.inl (by omega))
          rcases Option.isSome_iff_exists.mp this with ⟨l, hl⟩
          rw [hl]; rfl
        · simp only [if_neg hhit]
          exact ih r (i + 1) (Or.inl hr)
      · subst hnil
        rw [retainLoop_nil]; rfl

lemma keepByIx_eq_filterMap (ix : List Nat) (hs : ix.Pairwise (· < ·)) :
    ∀ (ps : List Packet) (i : Nat),
      keepByIx ix ps i
        = ix.filterMap (fun j => if i ≤ j then ps.get? (j - i) else none) := by
  intro ps
  induction ps with
  | nil =>
      intro i
      rw [keepByIx, Eq.comm, List.filterMap_eq_nil_iff]
      intro j _
      simp [List.get?]
  | cons p ps ih =>
      intro i
      by_cases hmem : i ∈ ix
      · rcases List.append_of_mem hmem with ⟨s, t, rfl⟩
        have hsplit := List.pairwise_append.mp hs
        have hst : ∀ a ∈ s, ∀ b ∈ i :: t, a < b := hsplit.2.2
        have htl : ∀ b ∈ t, i < b := (List.pairwise_cons.mp hsplit.2.1).1
        rw [keepByIx, if_pos hmem, ih (i + 1)]
        rw [List.filterMap_append, List.filterMap_append]
        have hs_nil : ∀ (f : Nat → Option Packet),
            (∀ j ∈ s, f j = none) → s.filterMap f = [] := by
          intro f hf; rw [List.filterMap_eq_nil_iff]; exact hf
        rw [hs_nil _ (fun j hj => by
              have hji : j < i := hst j hj i (List.mem_cons_self _ _)
              simp only [ite_eq_right_iff]
              intro hcon
              exact absurd hcon (by omega)),
            hs_nil _ (fun j hj => by
              have hji : j < i := hst j hj i (List.mem_cons_self _ _)
              simp only [ite_eq_right_iff]
              intro hcon
              exact absurd hcon (by omega))]
        simp only [List.nil_append, List.filterMap_cons, Nat.le_refl, if_pos,
          Nat.sub_self, List.get?]
        have hhd : ¬ i + 1 ≤ i := by omega
        simp only [if_neg hhd]
        have htail : t.filterMap (fun j => if i + 1 ≤ j then ps.get? (j - (i + 1)) else none)
            = t.filterMap (fun j => if i ≤ j then (p :: ps).get? (j - i) else none) := by
          refine List.filterMap_congr ?_
          intro j hj
          have hij : i < j := htl j hj
          have h1 : i + 1 ≤ j := hij
          have h2 : i ≤ j := by omega
          rw [if_pos h1, if_pos h2]
          have : j - i = (j - (i + 1)) + 1 := by omega
          rw [this]
          rfl
        rw [htail]
      · rw [keepByIx, if_neg hmem, ih (i + 1)]
        refine List.filterMap_congr ?_
        intro j hj
        have hij : j ≠ i := fun h => hmem (h ▸ hj)
        by_cases hle : i ≤ j
        · have h1 : i + 1 ≤ j := by omega
          rw [if_pos h1, if_pos hle]
          have : j - i = (j - (i + 1)) + 1 := by omega
          rw [this]
          rfl
        · have h1 : ¬ i + 1 ≤ j := by omega
          rw [if_neg h1, if_neg hle]

/-! ## Lemmas about the decode+filter stage -/

lemma decodeStage_cons_none (deser : List Nat → Option Shred)
    (f : Shred → List Nat → Bool) (p : Packet) (ps : List Packet) (i : Nat)
    (hd : deser p.data = none) :
    decodeStage deser f (p :: ps) i
      = (p :: (decodeStage deser f ps (i + 1)).1,
         (decodeStage deser f ps (i + 1)).2) := by
  simp [decodeStage, hd]

lemma decodeStage_cons_accept (deser : List Nat → Option Shred)
    (f : Shred → List Nat → Bool) (p : Packet) (ps : List Packet) (i : Nat)
    (s : Shred) (hd : deser p.data = some s) (hf : f s p.data = true) :
    decodeStage deser f (p :: ps) i
      = (setShredMeta p s :: (decodeStage deser f ps (i + 1)).1,
         (s, i) :: (decodeStage deser f ps (i + 1)).2) := by
  simp [decodeStage, hd, hf]

lemma decodeStage_cons_reject (deser : List Nat → Option Shred)
    (f : Shred → List Nat → Bool) (p : Packet) (ps : List Packet) (i : Nat)
    (s : Shred) (hd : deser p.data = some s) (hf : f s p.data = false) :
    decodeStage deser f (p :: ps) i
      = (p :: (decodeStage deser f ps (i + 1)).1,
         (decodeStage deser f ps (i + 1)).2) := by
  simp [decodeStage, hd, hf]

lemma decodeStage_fst_length (deser : List Nat → Option Shred)
    (f : Shred → List Nat → Bool) :
    ∀ (ps : List Packet) (i : Nat),
      ((decodeStage deser f ps i).1).length = ps.length := by
  intro ps
  induction ps with
  | nil => intro i; rfl
  | cons p ps ih =>
      intro i
      cases hd : deser p.data with
      | none => rw [decodeStage_cons_none deser f p ps i hd]; simp [ih]
      | some s =>
          cases hf : f s p.data with
          | true => rw [decodeStage_cons_accept deser f p ps i s hd hf]; simp [ih]
          | false => rw [decodeStage_cons_reject deser f p ps i s hd hf]; simp [ih]

lemma decodeStage_snd_bounds (deser : List Nat → Option Shred)
    (f : Shred → List Nat → Bool) :
    ∀ (ps : List Packet) (i : Nat) (q : Shred × Nat),
      q ∈ (decodeStage deser f ps i).2 → i ≤ q.2 ∧ q.2 < i + ps.length := by
  intro ps
  induction ps with
  | nil => intro i q hq; simp [decodeStage] at hq
  | cons p ps ih =>
      intro i q hq
      have hlen : (p :: ps).length = ps.length + 1 := rfl
      cases hd : deser p.data with
      | none =>
          rw [decodeStage_cons_none deser f p ps i hd] at hq
          have := ih (i + 1) q hq
          rw [hlen]; omega
      | some s =>
          cases hf : f s p.data with
          | true =>
              rw [decodeStage_cons_accept deser f p ps i s hd hf] at hq
              rcases List.mem_cons.mp hq with hq | hq
              · subst hq; rw [hlen]; simp
              · have := ih (i + 1) q hq
                rw [hlen]; omega
          | false =>
              rw [decodeStage_cons_reject deser f p ps i s hd hf] at hq
              have := ih (i + 1) q hq
              rw [hlen]; omega

lemma decodeStage_snd_pairwise (deser : List Nat → Option Shred)
    (f : Shred → List Nat → Bool) :
    ∀ (ps : List Packet) (i : Nat),
      ((decodeStage deser f ps i).2.map Prod.snd).Pairwise (· < ·) := by
  intro ps
  induction ps with
  | nil => intro i; simp [decodeStage]
  | cons p ps ih =>
      intro i
      cases hd : deser p.data with
      | none => rw [decodeStage_cons_none deser f p ps i hd]; exact ih (i + 1)
      | some s =>
          cases hf : f s p.data with
          | true =>
              rw [decodeStage_cons_accept deser f p ps i s hd hf]
              simp only [List.map_cons]
              refine List.pairwise_cons.mpr ⟨?_, ih (i + 1)⟩
              intro a ha
              rcases List.mem_map.mp ha with ⟨q, hq, rfl⟩
              have := (decodeStage_snd_bounds deser f ps (i + 1) q hq).1
              omega
          | false =>
              rw [decodeStage_cons_reject deser f p ps i s hd hf]
              exact ih (i + 1)

lemma decodeStage_mem_spec (deser : List Nat → Option Shred)
    (f : Shred → List Nat → Bool) :
    ∀ (ps : List Packet) (i : Nat) (q : Shred × Nat),
      q ∈ (decodeStage deser f ps i).2 →
      ∃ j, ∃ hj : j < ps.length, q.2 = i + j ∧
        deser (ps.get ⟨j, hj⟩).data = some q.1 ∧
        f q.1 (ps.get ⟨j, hj⟩).data = true ∧
        (decodeStage deser f ps i).1.get? j
          = some (setShredMeta (ps.get ⟨j, hj⟩) q.1) := by
  intro ps
  induction ps with
  | nil => intro i q hq; simp [decodeStage] at hq
  | cons p ps ih =>
      intro i q hq
      cases hd : deser p.data with
      | none =>
          rw [decodeStage_cons_none deser f p ps i hd] at hq ⊢
          rcases ih (i + 1) q hq with ⟨j, hj, hq2, hdes, hfq, hget⟩
          exact ⟨j + 1, by simpa using Nat.succ_lt_succ hj,
            by omega, hdes, hfq, by simpa using hget⟩
      | some s =>
          cases hf : f s p.data with
          | true =>
              rw [decodeStage_cons_accept deser f p ps i s hd hf] at hq ⊢
              rcases List.mem_cons.mp hq with hq | hq
              · have hq1 : q.1 = s := congrArg Prod.fst hq
                have hq2 : q.2 = i := congrArg Prod.snd hq
                refine ⟨0, by simp, by simpa using hq2, ?_, ?_, ?_⟩
                · show deser p.data = some q.1
                  rw [hq1, hd]
                · show f q.1 p.data = true
                  rw [hq1, hf]
                · rw [hq1]
                  rfl
              · rcases ih (i + 1) q hq with ⟨j, hj, hq2, hdes, hfq, hget⟩
                exact ⟨j + 1, by simpa using Nat.succ_lt_succ hj,
                  by omega, hdes, hfq, by simpa using hget⟩
          | false =>
              rw [decodeStage_cons_reject deser f p ps i s hd hf] at hq ⊢
              rcases ih (i + 1) q hq with ⟨j, hj, hq2, hdes, hfq, hget⟩
              exact ⟨j + 1, by simpa using Nat.succ_lt_succ hj,
                by omega, hdes, hfq, by simpa using hget⟩

lemma decodeStage_mem_iff (deser : List Nat → Option Shred)
    (f : Shred → List Nat → Bool) :
    ∀ (ps : List Packet) (i : Nat) (s : Shred) (j : Nat) (hj : j < ps.length),
      ((s, i + j) ∈ (decodeStage deser f ps i).2
        ↔ acceptShred deser f (ps.get ⟨j, hj⟩).data = some s) := by
  intro ps
  induction ps with
  | nil => intro i s j hj; simp at hj
  | cons p ps ih =>
      intro i s j hj
      cases j with
      | zero =>
          have hget : (p :: ps).get ⟨0, hj⟩ = p := rfl
          rw [hget]
          cases hd : deser p.data with
          | none =>
              rw [decodeStage_cons_none deser f p ps i hd]
              constructor
              · intro hq
                have := (decodeStage_snd_bounds deser f ps (i + 1) _ hq).1
                omega
              · intro hacc
                simp [acceptShred, hd] at hacc
          | some s2 =>
              cases hf : f s2 p.data with
              | true =>
                  rw [decodeStage_cons_accept deser f p ps i s2 hd hf]
                  constructor
                  · intro hq
                    rcases List.mem_cons.mp hq with hq | hq
                    · have hs : s = s2 := congrArg Prod.fst hq
                      subst hs
                      simp [acceptShred, hd, hf]
                    · have := (decodeStage_snd_bounds deser f ps (i + 1) _ hq).1
                      omega
                  · intro hacc
                    simp only [acceptShred, hd, if_pos hf, Option.some.injEq] at hacc
                    subst hacc
                    simp
              | false =>
                  rw [decodeStage_cons_reject deser f p ps i s2 hd hf]
                  constructor
                  · intro hq
                    have := (decodeStage_snd_bounds deser f ps (i + 1) _ hq).1
                    omega
                  · intro hacc
                    simp [acceptShred, hd, hf] at hacc
      | succ j =>
          have hj2 : j < ps.length := by simpa using Nat.lt_of_succ_lt_succ hj
          have hlift : (p :: ps).get ⟨j + 1, hj⟩ = ps.get ⟨j, hj2⟩ := rfl
          rw [hlift]
          have hadd : i + (j + 1) = (i + 1) + j := by omega
          rw [hadd, ← ih (i + 1) s j hj2]
          cases hd : deser p.data with
          | none => rw [decodeStage_cons_none deser f p ps i hd]
          | some s2 =>
              cases hf : f s2 p.data with
              | true =>
                  rw [decodeStage_cons_accept deser f p ps i s2 hd hf]
                  simp only [List.mem_cons]
                  constructor
                  · intro h
                    rcases h with h | h
                    · have : i + 1 + j = i := congrArg Prod.snd h
                      omega
                    · exact h
                  · intro h; exact Or.inr h
              | false => rw [decodeStage_cons_reject deser f p ps i s2 hd hf]

/-- Selecting positions by index with all indices in bounds: the selection
has one packet per index, the one located at that index. -/
lemma filterMap_get_spec (ps : List Packet) :
    ∀ (ix : List Nat), (∀ j ∈ ix, j < ps.length) →
      (ix.filterMap ps.get?).length = ix.length ∧
      ∀ k (hk : k < ix.length),
        (ix.filterMap ps.get?).get? k = ps.get? (ix.get ⟨k, hk⟩) := by
  intro ix
  induction ix with
  | nil => intro _; exact ⟨rfl, fun k hk => by simp at hk⟩
  | cons j tl ih =>
      intro hbound
      have hj : j < ps.length := hbound j (List.mem_cons_self _ _)
      have htl := ih (fun a ha => hbound a (List.mem_cons_of_mem _ ha))
      rw [List.filterMap_cons, List.get?_eq_get hj]
      refine ⟨by simpa using htl.1, ?_⟩
      intro k hk
      cases k with
      | zero => simp [List.get?_eq_get hj]
      | succ k =>
          have hk2 : k < tl.length := by simpa using Nat.lt_of_succ_lt_succ hk
          simpa using htl.2 k hk2

lemma stageIx_pairwise (deser : List Nat → Option Shred)
    (f : Shred → List Nat → Bool) (batch : List Packet) :
    (stageIx deser f batch).Pairwise (· < ·) :=
  decodeStage_snd_pairwise deser f batch 0

lemma stageIx_lt_length (deser : List Nat → Option Shred)
    (f : Shred → List Nat → Bool) (batch : List Packet) :
    ∀ j ∈ stageIx deser f batch, j < (decodeStage deser f batch 0).1.length := by
  intro j hj
  rcases List.mem_map.mp hj with ⟨q, hq, rfl⟩
  have := (decodeStage_snd_bounds deser f batch 0 q hq).2
  rw [decodeStage_fst_length]
  omega

/-- The retention rebuild of one ingest iteration selects exactly the packets
at the surviving indices, in index order. -/
lemma stageRetained_eq (deser : List Nat → Option Shred)
    (f : Shred → List Nat → Bool) (batch : List Packet) :
    stageRetained deser f batch
      = (stageIx deser f batch).filterMap (decodeStage deser f batch 0).1.get? := by
  have hpw := stageIx_pairwise deser f batch
  have h1 := retainLoop_eq_keep (stageIx deser f batch) hpw
    (decodeStage deser f batch 0).1 0 0 (ptrInv_zero _)
  have h2 := keepByIx_eq_filterMap (stageIx deser f batch) hpw
    (decodeStage deser f batch 0).1 0
  rw [stageRetained, h1, Option.getD_some, h2]
  refine List.filterMap_congr ?_
  intro j _
  simp

/-- C10: the retention rebuild is total.  The index expression
`packets_ix[retain_ix]` sits behind the `!packets_ix.is_empty()` guard and
the cursor update clamps to `packets_ix.len() - 1`, so the loop never reaches
the out-of-bounds arm, for every packet batch and every survivor-index list;
with the empty index list every packet is dropped. -/
theorem C10_retention_rebuild_total (packets_ix : List Nat) (ps : List Packet) :
    (retainLoop packets_ix ps 0 0).isSome = true ∧
    retainLoop ([] : List Nat) ps 0 0 = some [] := by
  constructor
  · refine retainLoop_isSome packets_ix ps 0 0 ?_
    cases packets_ix with
    | nil => exact Or.inr rfl
    | cons a l => exact Or.inl (Nat.succ_pos _)
  · exact retainLoop_nil ps 0 0

/-- C2: after the retention rebuild of an ingest iteration the retained
packet count equals the surviving shred count; the k-th retained packet is
the (meta-annotated) packet at the k-th surviving original index, the packet
the k-th surviving shred was decoded from, and its `meta.slot` / `meta.seed`
equal that shred's slot and seed; and the surviving original indices are
strictly increasing, so retained positions preserve the original relative
order. -/
theorem C2_retention_alignment (deser : List Nat → Option Shred)
    (shred_filter : Shred → List Nat → Bool) (batch : List Packet) :
    (stageRetained deser shred_filter batch).length
        = (stageShreds deser shred_filter batch).length ∧
    (∀ k, ∀ hk : k < (stageShreds deser shred_filter batch).length,
      ∃ j, ∃ hj : j < batch.length,
        (stageIx deser shred_filter batch).get? k = some j ∧
        deser (batch.get ⟨j, hj⟩).data
          = some ((stageShreds deser shred_filter batch).get ⟨k, hk⟩) ∧
        (stageRetained deser shred_filter batch).get? k
          = some (setShredMeta (batch.get ⟨j, hj⟩)
              ((stageShreds deser shred_filter batch).get ⟨k, hk⟩)) ∧
        (setShredMeta (batch.get ⟨j, hj⟩)
              ((stageShreds deser shred_filter batch).get ⟨k, hk⟩)).meta.slot
          = ((stageShreds deser shred_filter batch).get ⟨k, hk⟩).slot ∧
        (setShredMeta (batch.get ⟨j, hj⟩)
              ((stageShreds deser shred_filter batch).get ⟨k, hk⟩)).meta.seed
          = ((stageShreds deser shred_filter batch).get ⟨k, hk⟩).seed) ∧
    (∀ k1 k2, ∀ hk1 : k1 < (stageIx deser shred_filter batch).length,
      ∀ hk2 : k2 < (stageIx deser shred_filter batch).length, k1 < k2 →
        (stageIx deser shred_filter batch).get ⟨k1, hk1⟩
          < (stageIx deser shred_filter batch).get ⟨k2, hk2⟩) := by
  have hspec := filterMap_get_spec (decodeStage deser shred_filter batch 0).1
    (stageIx deser shred_filter batch) (stageIx_lt_length deser shred_filter batch)
  have hlen_ix : (stageIx deser shred_filter batch).length
      = ((decodeStage deser shred_filter batch 0).2).length := by
    rw [stageIx, List.length_map]
  have hlen_sh : (stageShreds deser shred_filter batch).length
      = ((decodeStage deser shred_filter batch 0).2).length := by
    rw [stageShreds, List.length_map]
  refine ⟨?_, ?_, ?_⟩
  · rw [stageRetained_eq, hspec.1, hlen_ix, hlen_sh]
  · intro k hk
    have hk2 : k < ((decodeStage deser shred_filter batch 0).2).length := by
      rw [← hlen_sh]; exact hk
    have hkix : k < (stageIx deser shred_filter batch).length := by
      rw [hlen_ix]; exact hk2
    have hq := decodeStage_mem_spec deser shred_filter batch 0
      ((decodeStage deser shred_filter batch 0).2.get ⟨k, hk2⟩)
      (List.get_mem _ _ _)
    rcases hq with ⟨j, hj, hq2, hdes, hfq, hget⟩
    have hsh : (stageShreds deser shred_filter batch).get ⟨k, hk⟩
        = ((decodeStage deser shred_filter batch 0).2.get ⟨k, hk2⟩).1 := by
      show (((decodeStage deser shred_filter batch 0).2).map Prod.fst).get ⟨k, hk⟩
          = ((decodeStage deser shred_filter batch 0).2.get ⟨k, hk2⟩).1
      simp [list_get_mk, List.getElem_map]
    have hix : (stageIx deser shred_filter batch).get ⟨k, hkix⟩
        = ((decodeStage deser shred_filter batch 0).2.get ⟨k, hk2⟩).2 := by
      show (((decodeStage deser shred_filter batch 0).2).map Prod.snd).get ⟨k, hkix⟩
          = ((decodeStage deser shred_filter batch 0).2.get ⟨k, hk2⟩).2
      simp [list_get_mk, List.getElem_map]
    have hjix : (stageIx deser shred_filter batch).get ⟨k, hkix⟩ = j := by
      rw [hix, hq2]; omega
    refine ⟨j, hj, ?_, ?_, ?_, rfl, rfl⟩
    · rw [List.get?_eq_get hkix, hjix]
    · rw [hsh]; exact hdes
    · rw [stageRetained_eq, hspec.2 k hkix, hjix, hget, hsh]
  · intro k1 k2 hk1 hk2 hlt
    have := List.pairwise_iff_getElem.mp (stageIx_pairwise deser shred_filter batch)
      k1 k2 hk1 hk2 hlt
    rw [list_get_mk, list_get_mk]
    exact this

/-! ## recv_window field lemmas -/

lemma recv_window_err (deser : List Nat → Option Shred)
    (f : Shred → List Nat → Bool) (ins : List Shred → Except Nat Unit)
    (alive : Bool) (ch : ChannelInput) (e : RecvTimeoutError)
    (h : ch.recv_timeout RECV_TIMEOUT_MS = Except.error e) :
    recv_window deser f ins alive ch
      = { retained := [], sentToRetransmit := false, sendOutcome := none,
          inserted := none, result := Except.error (WinError.RecvTimeout e) } := by
  simp [recv_window, h]

lemma recv_window_ok_fields (deser : List Nat → Option Shred)
    (f : Shred → List Nat → Bool) (ins : List Shred → Except Nat Unit)
    (alive : Bool) (ch : ChannelInput) (fb : Packets)
    (h : ch.recv_timeout RECV_TIMEOUT_MS = Except.ok fb) :
    (recv_window deser f ins alive ch).retained
        = stageRetained deser f (coalesced fb ch.queued) ∧
    (recv_window deser f ins alive ch).sentToRetransmit
        = !(stageRetained deser f (coalesced fb ch.queued)).isEmpty ∧
    (recv_window deser f ins alive ch).sendOutcome
        = (if (stageRetained deser f (coalesced fb ch.queued)).isEmpty
            then none else some alive) ∧
    (recv_window deser f ins alive ch).inserted
        = some (stageShreds deser f (coalesced fb ch.queued)) ∧
    (ins (stageShreds deser f (coalesced fb ch.queued)) = Except.ok () →
        (recv_window deser f ins alive ch).result = Except.ok ()) ∧
    (∀ code, ins (stageShreds deser f (coalesced fb ch.queued)) = Except.error code →
        (recv_window deser f ins alive ch).result
          = Except.error (WinError.Blocktree code)) := by
  cases hins : ins (stageShreds deser f (coalesced fb ch.queued)) <;>
    simp [recv_window, h, hins]

lemma stage_snd_nil_of_reject (deser : List Nat → Option Shred)
    (f : Shred → List Nat → Bool) (batch : List Packet)
    (hall : ∀ p ∈ batch, acceptShred deser f p.data = none) :
    (decodeStage deser f batch 0).2 = [] := by
  rcases h : (decodeStage deser f batch 0).2 with _ | ⟨q, rest⟩
  · rfl
  · exfalso
    have hq : q ∈ (decodeStage deser f batch 0).2 := by
      rw [h]; exact List.mem_cons_self _ _
    rcases decodeStage_mem_spec deser f batch 0 q hq with ⟨j, hj, _, hdes, hfq, _⟩
    have hacc := hall (batch.get ⟨j, hj⟩) (List.get_mem _ _ _)
    rw [list_get_mk] at hdes hfq
    simp [acceptShred, hdes, hfq] at hacc

/-! ## Claims C3-C6 -/

/-- C6: `recv_window` queries the inbound channel with the 200 ms bound
(`RECV_TIMEOUT_MS`); when the bounded receive returns an error it fails with
that receive error having filtered, forwarded and inserted nothing; when a
batch arrives, every immediately available queued batch is appended to it and
the coalesced batch is what the iteration processes. -/
theorem C6_bounded_receive_and_coalescing (deser : List Nat → Option Shred)
    (f : Shred → List Nat → Bool) (ins : List Shred → Except Nat Unit)
    (alive : Bool) (ch : ChannelInput) :
    RECV_TIMEOUT_MS = 200 ∧
    (∀ e, ch.recv_timeout RECV_TIMEOUT_MS = Except.error e →
      recv_window deser f ins alive ch
        = { retained := [], sentToRetransmit := false, sendOutcome := none,
            inserted := none, result := Except.error (WinError.RecvTimeout e) }) ∧
    (∀ fb, ch.recv_timeout RECV_TIMEOUT_MS = Except.ok fb →
      (recv_window deser f ins alive ch).inserted
          = some (stageShreds deser f (coalesced fb ch.queued)) ∧
      (recv_window deser f ins alive ch).retained
          = stageRetained deser f (coalesced fb ch.queued) ∧
      coalesced fb ch.queued
          = fb.packets ++ (ch.queued.map Packets.packets).flatten) := by
  refine ⟨rfl, ?_, ?_⟩
  · intro e he
    exact recv_window_err deser f ins alive ch e he
  · intro fb hfb
    have hf := recv_window_ok_fields deser f ins alive ch fb hfb
    exact ⟨hf.2.2.2.1, hf.1, rfl⟩

/-- C5: the retained batch is sent to the retransmit sink only when it is
non-empty, and the outcome of that send is discarded: whether the sink is
alive or gone changes nothing observable except the send outcome itself — in
particular neither the returned result nor the shreds handed to the block
store. -/
theorem C5_send_failure_ignored (deser : List Nat → Option Shred)
    (f : Shred → List Nat → Bool) (ins : List Shred → Except Nat Unit)
    (a1 a2 : Bool) (ch : ChannelInput) :
    (recv_window deser f ins a1 ch).retained
        = (recv_window deser f ins a2 ch).retained ∧
    (recv_window deser f ins a1 ch).sentToRetransmit
        = (recv_window deser f ins a2 ch).sentToRetransmit ∧
    (recv_window deser f ins a1 ch).inserted
        = (recv_window deser f ins a2 ch).inserted ∧
    (recv_window deser f ins a1 ch).result
        = (recv_window deser f ins a2 ch).result ∧
    ((recv_window deser f ins a1 ch).sentToRetransmit = true
        ↔ (recv_window deser f ins a1 ch).retained ≠ []) ∧
    (∀ fb, ch.recv_timeout RECV_TIMEOUT_MS = Except.ok fb →
      (recv_window deser f ins a1 ch).inserted
          = some (stageShreds deser f (coalesced fb ch.queued))) := by
  cases hr : ch.recv_timeout RECV_TIMEOUT_MS with
  | error e =>
      rw [recv_window_err deser f ins a1 ch e hr,
        recv_window_err deser f ins a2 ch e hr]
      refine ⟨rfl, rfl, rfl, rfl, by simp, ?_⟩
      intro fb hfb
      exact absurd hfb (by simp)
  | ok fb =>
      have h1 := recv_window_ok_fields deser f ins a1 ch fb hr
      have h2 := recv_window_ok_fields deser f ins a2 ch fb hr
      refine ⟨?_, ?_, ?_, ?_, ?_, ?_⟩
      · rw [h1.1, h2.1]
      · rw [h1.2.1, h2.2.1]
      · rw [h1.2.2.2.1, h2.2.2.2.1]
      · cases hins : ins (stageShreds deser f (coalesced fb ch.queued)) with
        | ok u =>
            cases u
            rw [h1.2.2.2.2.1 hins, h2.2.2.2.2.1 hins]
        | error code =>
            rw [h1.2.2.2.2.2 code hins, h2.2.2.2.2.2 code hins]
      · rw [h1.2.1, h1.1]
        cases hret : stageRetained deser f (coalesced fb ch.queued) <;> simp
      · intro fb2 hfb2
        have hfbeq : fb = fb2 := by injection hfb2
        subst hfbeq
        exact h1.2.2.2.1

/-- C3: every shred handed to the block-store insert, and every packet
forwarded for retransmit, comes from a packet of the coalesced batch that
deserialized successfully and whose shred the admission predicate accepted
on `(shred, packet.data)`; a packet whose bytes fail to deserialize or whose
shred the predicate rejects contributes to neither output (its index is not
a surviving index). -/
theorem C3_outputs_are_admitted (deser : List Nat → Option Shred)
    (f : Shred → List Nat → Bool) (ins : List Shred → Except Nat Unit)
    (alive : Bool) (ch : ChannelInput) (fb : Packets)
    (h : ch.recv_timeout RECV_TIMEOUT_MS = Except.ok fb) :
    (∀ s, s ∈ ((recv_window deser f ins alive ch).inserted).getD [] →
      ∃ j, ∃ hj : j < (coalesced fb ch.queued).length,
        deser ((coalesced fb ch.queued).get ⟨j, hj⟩).data = some s ∧
        f s ((coalesced fb ch.queued).get ⟨j, hj⟩).data = true) ∧
    (∀ p, p ∈ (recv_window deser f ins alive ch).retained →
      ∃ s, ∃ j, ∃ hj : j < (coalesced fb ch.queued).length,
        deser ((coalesced fb ch.queued).get ⟨j, hj⟩).data = some s ∧
        f s ((coalesced fb ch.queued).get ⟨j, hj⟩).data = true ∧
        p = setShredMeta ((coalesced fb ch.queued).get ⟨j, hj⟩) s) ∧
    (∀ j, ∀ hj : j < (coalesced fb ch.queued).length,
      acceptShred deser f ((coalesced fb ch.queued).get ⟨j, hj⟩).data = none →
      j ∉ stageIx deser f (coalesced fb ch.queued)) := by
  have hf := recv_window_ok_fields deser f ins alive ch fb h
  refine ⟨?_, ?_, ?_⟩
  · intro s hs
    rw [hf.2.2.2.1] at hs
    simp only [Option.getD_some] at hs
    rcases List.mem_map.mp hs with ⟨q, hq, rfl⟩
    rcases decodeStage_mem_spec deser f (coalesced fb ch.queued) 0 q hq with
      ⟨j, hj, _, hdes, hfq, _⟩
    exact ⟨j, hj, hdes, hfq⟩
  · intro p hp
    rw [hf.1, stageRetained_eq] at hp
    rcases List.mem_filterMap.mp hp with ⟨j2, hj2, hget2⟩
    rcases List.mem_map.mp hj2 with ⟨q, hq, rfl⟩
    rcases decodeStage_mem_spec deser f (coalesced fb ch.queued) 0 q hq with
      ⟨j, hj, hq2, hdes, hfq, hget⟩
    have hjq : q.2 = j := by omega
    rw [hjq] at hget2
    rw [hget] at hget2
    have hp2 : p = setShredMeta ((coalesced fb ch.queued).get ⟨j, hj⟩) q.1 := by
      injection hget2.symm
    exact ⟨q.1, j, hj, hdes, hfq, hp2⟩
  · intro j hj hacc hmem
    rcases List.mem_map.mp hmem with ⟨q, hq, hqj⟩
    rcases decodeStage_mem_spec deser f (coalesced fb ch.queued) 0 q hq with
      ⟨j2, hj2, hq2, hdes, hfq, _⟩
    have : j2 = j := by omega
    subst this
    rw [list_get_mk] at hdes hfq
    simp [acceptShred, hdes, hfq] at hacc

/-- C4: when the survivor set of an iteration is empty — empty coalesced
batch, all packets malformed, or every decoded shred rejected — no send to
the retransmit sink happens, the block-store insert receives the empty
sequence, and `recv_window` returns success whenever the block store accepts
the empty insert. -/
theorem C4_empty_survivors_noop (deser : List Nat → Option Shred)
    (f : Shred → List Nat → Bool) (ins : List Shred → Except Nat Unit)
    (alive : Bool) (ch : ChannelInput) (fb : Packets)
    (h : ch.recv_timeout RECV_TIMEOUT_MS = Except.ok fb)
    (hall : ∀ p ∈ coalesced fb ch.queued, acceptShred deser f p.data = none) :
    (recv_window deser f ins alive ch).sentToRetransmit = false ∧
    (recv_window deser f ins alive ch).sendOutcome = none ∧
    (recv_window deser f ins alive ch).inserted = some [] ∧
    (ins [] = Except.ok () →
        (recv_window deser f ins alive ch).result = Except.ok ()) := by
  have hnil := stage_snd_nil_of_reject deser f (coalesced fb ch.queued) hall
  have hsh : stageShreds deser f (coalesced fb ch.queued) = [] := by
    rw [stageShreds, hnil]; rfl
  have hix : stageIx deser f (coalesced fb ch.queued) = [] := by
    rw [stageIx, hnil]; rfl
  have hret : stageRetained deser f (coalesced fb ch.queued) = [] := by
    rw [stageRetained_eq, hix]; rfl
  have hf := recv_window_ok_fields deser f ins alive ch fb h
  refine ⟨?_, ?_, ?_, ?_⟩
  · rw [hf.2.1, hret]; rfl
  · rw [hf.2.2.1, hret]; rfl
  · rw [hf.2.2.2.1, hsh]
  · intro hok
    refine hf.2.2.2.2.1 ?_
    rw [hsh]; exact hok

/-! ## Concrete instances used by the witnesses -/

/-- A concrete shred. -/
def exShred : Shred := { slot := 3, index := 1, seed := 7 }

/-- A concrete deserializer: byte string `[0]` decodes to `exShred`,
everything else is malformed. -/
def exDeser : List Nat → Option Shred :=
  fun d => if d = [0] then some exShred else none

/-- An admission predicate accepting everything. -/
def exFilterTrue : Shred → List Nat → Bool := fun _ _ => true

/-- A packet that deserializes. -/
def exPacketGood : Packet := { data := [0], meta := { slot := 0, seed := 0 } }

/-- A packet that fails to deserialize. -/
def exPacketBad : Packet := { data := [1], meta := { slot := 0, seed := 0 } }

/-- A block store that accepts every insert. -/
def exIns : List Shred → Except Nat Unit := fun _ => Except.ok ()

/-- A channel on which the bounded receive yields the given batch and
nothing is queued behind it. -/
def exChanOk (ps : List Packet) : ChannelInput :=
  { recv_timeout := fun _ => Except.ok { packets := ps }, queued := [] }

theorem C3_outputs_are_admitted_witness :
    ∃ j, ∃ hj : j < (coalesced { packets := [exPacketGood] } []).length,
      exDeser ((coalesced { packets := [exPacketGood] } []).get ⟨j, hj⟩).data
          = some exShred ∧
      exFilterTrue exShred
          ((coalesced { packets := [exPacketGood] } []).get ⟨j, hj⟩).data = true :=
  (C3_outputs_are_admitted exDeser exFilterTrue exIns true
      (exChanOk [exPacketGood]) { packets := [exPacketGood] } rfl).1
    exShred (by decide)

theorem C4_empty_survivors_noop_witness :
    (recv_window exDeser exFilterTrue exIns true
        (exChanOk [exPacketBad])).sentToRetransmit = false ∧
    (recv_window exDeser exFilterTrue exIns true
        (exChanOk [exPacketBad])).sendOutcome = none ∧
    (recv_window exDeser exFilterTrue exIns true
        (exChanOk [exPacketBad])).inserted = some [] ∧
    (exIns [] = Except.ok () →
      (recv_window exDeser exFilterTrue exIns true
          (exChanOk [exPacketBad])).result = Except.ok ()) :=
  C4_empty_survivors_noop exDeser exFilterTrue exIns true
    (exChanOk [exPacketBad]) { packets := [exPacketBad] } rfl (by decide)

/-! ## Worker loop of WindowService::new -/

/-- One observation the worker loop makes in an iteration: the exit flag read
at the top, the outcome `recv_window` would produce, and the current instant
(milliseconds) when the outcome is handled. -/
structure IterInput where
  exitFlag : Bool
  outcome : Except WinError Unit
  time : Nat
deriving Repr

/-- The observable side effects of one loop iteration. -/
inductive LoopEvent
  | stallWarning
  | windowErrorCounter
deriving DecidableEq, Repr

/-- Why the worker loop broke. -/
inductive ExitReason
  | exitFlag
  | disconnected
deriving DecidableEq, Repr

/-- `Duration::from_secs(30)`: the stall-warning threshold. -/
def STALL_WARN_MS : Nat := 30000

/-- One iteration of the worker loop in `WindowService::new`, carried over
the liveness clock `now` (the instant of the last reset).  `Sum.inl` is a
continuing iteration with its emitted events and the new clock; `Sum.inr`
is a `break`. -/
def loopIter (now : Nat) (inp : IterInput) :
    Sum (List LoopEvent × Nat) ExitReason :=
  if inp.exitFlag then
    Sum.inr ExitReason.exitFlag
  else
    match inp.outcome with
    | Except.ok _ => Sum.inl ([], inp.time)
    | Except.error (WinError.RecvTimeout RecvTimeoutError.Disconnected) =>
        Sum.inr ExitReason.disconnected
    | Except.error (WinError.RecvTimeout RecvTimeoutError.Timeout) =>
        if STALL_WARN_MS < inp.time - now then
          Sum.inl ([LoopEvent.stallWarning], inp.time)
        else
          Sum.inl ([], now)
    | Except.error (WinError.Blocktree _) =>
        Sum.inl ([LoopEvent.windowErrorCounter], now)

/-- The worker loop run over a finite observation trace: the events emitted,
the final liveness clock, and the exit reason when the loop broke before
consuming the whole trace. -/
def runLoop (now : Nat) : List IterInput → List LoopEvent × Nat × Option ExitReason
  | [] => ([], now, none)
  | inp :: rest =>
    match loopIter now inp with
    | Sum.inr r => ([], now, some r)
    | Sum.inl (evs, now2) =>
        let t := runLoop now2 rest
        (evs ++ t.1, t.2.1, t.2.2)

/-- C7: the worker loop exits only on an exit flag observed set at the top of
an iteration or on a `Disconnected` receive error, and after a break the
remaining trace is never consumed (no further packets are read); a `Timeout`
outcome continues, emitting the stall warning and resetting the liveness
clock exactly when more than 30 s (`STALL_WARN_MS`) have elapsed since the
last reset; every other error — block-store errors included — bumps the
error counter and continues with the clock untouched; a successful iteration
resets the clock. -/
theorem C7_worker_loop_dispatch (now : Nat) (inp : IterInput) :
    STALL_WARN_MS = 30000 ∧
    (inp.exitFlag = true → loopIter now inp = Sum.inr ExitReason.exitFlag) ∧
    (inp.exitFlag = false →
      inp.outcome = Except.error (WinError.RecvTimeout RecvTimeoutError.Disconnected) →
      loopIter now inp = Sum.inr ExitReason.disconnected) ∧
    (∀ r, loopIter now inp = Sum.inr r →
      inp.exitFlag = true ∨
      inp.outcome = Except.error (WinError.RecvTimeout RecvTimeoutError.Disconnected)) ∧
    (inp.exitFlag = false →
      inp.outcome = Except.error (WinError.RecvTimeout RecvTimeoutError.Timeout) →
      loopIter now inp
        = (if STALL_WARN_MS < inp.time - now then
            Sum.inl ([LoopEvent.stallWarning], inp.time)
          else
            Sum.inl ([], now))) ∧
    (inp.exitFlag = false → ∀ code,
      inp.outcome = Except.error (WinError.Blocktree code) →
      loopIter now inp = Sum.inl ([LoopEvent.windowErrorCounter], now)) ∧
    (inp.exitFlag = false → inp.outcome = Except.ok () →
      loopIter now inp = Sum.inl ([], inp.time)) ∧
    (∀ rest r, loopIter now inp = Sum.inr r →
      runLoop now (inp :: rest) = ([], now, some r)) := by
  refine ⟨rfl, ?_, ?_, ?_, ?_, ?_, ?_, ?_⟩
  · intro hflag
    simp [loopIter, hflag]
  · intro hflag hout
    simp [loopIter, hflag, hout]
  · intro r hr
    by_cases hflag : inp.exitFlag
    · exact Or.inl hflag
    · refine Or.inr ?_
      rcases hout : inp.outcome with e | u
      · rcases e with e | code
        · rcases e with _ | _
          · by_cases hc : STALL_WARN_MS < inp.time - now
            · simp [loopIter, hflag, hout, hc] at hr
            · simp [loopIter, hflag, hout, hc] at hr
          · rfl
        · simp [loopIter, hflag, hout] at hr
      · simp [loopIter, hflag, hout] at hr
  · intro hflag hout
    simp [loopIter, hflag, hout]
  · intro hflag code hout
    simp [loopIter, hflag, hout]
  · intro hflag hout
    simp [loopIter, hflag, hout]
  · intro rest r hr
    rw [runLoop, hr]

/-! ## Finalizer teardown guard -/

/-- How the worker body can leave: a normal return of the closure, or an
unwinding panic.  Rust runs `Drop` on both paths. -/
inductive BodyOutcome
  | normal
  | panicked
deriving DecidableEq, Repr

/-- The state the worker shares with the outside: the `Arc<AtomicBool>` exit
flag, plus everything else (opaque). -/
structure WorkerState (A : Type) where
  exitFlag : Bool
  shared : A
deriving Repr

/-- `Finalizer::drop`: `self.exit_sender.clone().store(true, Relaxed)`. -/
def finalizerDrop {A : Type} (st : WorkerState A) : WorkerState A :=
  { st with exitFlag := true }

/-- The worker closure with the `Finalizer` installed at its top
(`let _exit = Finalizer::new(exit.clone())`): whatever the body does to the
shared state and however it leaves — normal return or panic — the guard's
destructor runs on the state the body left behind. -/
def runWorker {A : Type} (body : WorkerState A → BodyOutcome × WorkerState A)
    (st : WorkerState A) : BodyOutcome × WorkerState A :=
  let r := body st
  (r.1, finalizerDrop r.2)

/-- C8: after the worker thread has terminated — normal exit (flag observed
or channel disconnect) or panic — the shared exit flag reads `true`: the
`Finalizer` stores `true` on every exit path, whatever the body did, and the
teardown changes nothing else in the shared state. -/
theorem C8_finalizer_sets_exit_flag {A : Type}
    (body : WorkerState A → BodyOutcome × WorkerState A) (st : WorkerState A) :
    ((runWorker body st).2).exitFlag = true ∧
    (runWorker body st).1 = (body st).1 ∧
    ((runWorker body st).2).shared = ((body st).2).shared := by
  exact ⟨rfl, rfl, rfl⟩

/-! ## Bank-forks read lock during the parallel stage (C9) -/

/-- Modelled from the spec: the bank-forks view behind its multi-reader
lock; the only read the window performs is `working_bank()`. -/
structure BankForks where
  working_bank : Bank
deriving DecidableEq, Repr

/-- The filter closure built in `WindowService::new` and handed to
`recv_window`:
`|shred, shred_buf| shred_filter(&id, shred, shred_buf,
  bank_forks.as_ref().map(|bank_forks| bank_forks.read().unwrap().working_bank()))`.
Besides the verdict it reports how many bank-forks read-lock acquisitions
the call performs: one per call when a bank-forks view is configured (the
`read()` inside the closure), zero otherwise. -/
def windowFilterClosure
    (shred_filter : Pubkey → Shred → List Nat → Option Bank → Bool)
    (my_id : Pubkey) (bank_forks : Option BankForks)
    (shred : Shred) (shred_buf : List Nat) : Bool × Nat :=
  match bank_forks with
  | none => (shred_filter my_id shred shred_buf none, 0)
  | some bf => (shred_filter my_id shred shred_buf (some bf.working_bank), 1)

/-- Total bank-forks read-lock acquisitions performed while the parallel
decode+filter stage runs over a batch: the filter closure is invoked once
per packet that deserializes, and each invocation contributes its own
acquisitions. -/
def decodeStageLockCount (deser : List Nat → Option Shred)
    (f : Shred → List Nat → Bool × Nat) : List Packet → Nat
  | [] => 0
  | p :: ps =>
    (match deser p.data with
     | some s => (f s p.data).2
     | none => 0) + decodeStageLockCount deser f ps

/-- Read-lock acquisitions on the bank-forks view during one parallel stage
of the worker, with the closure `WindowService::new` installs. -/
def parallelStageLockCount (deser : List Nat → Option Shred)
    (shred_filter : Pubkey → Shred → List Nat → Option Bank → Bool)
    (my_id : Pubkey) (bank_forks : Option BankForks)
    (batch : List Packet) : Nat :=
  decodeStageLockCount deser (windowFilterClosure shred_filter my_id bank_forks) batch

/-- A concrete full filter for the C9 instances. -/
def exFullFilter : Pubkey → Shred → List Nat → Option Bank → Bool :=
  fun _ _ _ _ => true

/-- A concrete identity for the C9 instances. -/
def exId : Pubkey := { key := 42 }

/-- A concrete bank-forks view for the C9 instances. -/
def exForks : BankForks := { working_bank := { bslot := 0 } }

/-- C9 counterexample: on a coalesced batch of two deserializable packets,
with a bank-forks view configured, the parallel decode+filter stage acquires
the bank-forks read lock twice — once per filter-closure call — not exactly
once per iteration, and the acquisitions happen inside the parallel stage. -/
theorem C9_counterexample_lock_reacquired :
    parallelStageLockCount exDeser exFullFilter exId (some exForks)
        [exPacketGood, exPacketGood] = 2 ∧
    ¬ parallelStageLockCount exDeser exFullFilter exId (some exForks)
        [exPacketGood, exPacketGood] = 1 := by
  constructor
  · rfl
  · decide

/-- C9 amended: the working-bank snapshot is not obtained once per ingest
iteration; instead the filter closure re-acquires the bank-forks read lock
inside the parallel decode+filter stage, once per packet that deserializes
successfully (each acquisition released before the closure returns), and
zero times when no bank-forks view is configured. -/
theorem C9_lock_acquired_per_deserialized_packet
    (deser : List Nat → Option Shred)
    (shred_filter : Pubkey → Shred → List Nat → Option Bank → Bool)
    (my_id : Pubkey) (bf : BankForks) (batch : List Packet) :
    parallelStageLockCount deser shred_filter my_id none batch = 0 ∧
    parallelStageLockCount deser shred_filter my_id (some bf) batch
      = (batch.filter (fun p => (deser p.data).isSome)).length := by
  constructor
  · induction batch with
    | nil => rfl
    | cons p ps ih =>
        simp only [parallelStageLockCount, decodeStageLockCount] at ih ⊢
        cases hd : deser p.data <;> simp [windowFilterClosure, hd, ih]
  · induction batch with
    | nil => rfl
    | cons p ps ih =>
        simp only [parallelStageLockCount, decodeStageLockCount] at ih ⊢
        cases hd : deser p.data <;>
          simp [windowFilterClosure, ih, List.filter_cons, hd] <;> omega

end SolanaWindow
